import Mathlib

/-!
Verification of the RAG backend core (document chunking, text
normalization, and the RAG orchestrator's query / streaming paths)
against its natural-language specification.

Python strings are modelled as `List Char` (sequences of Unicode code
points).  Python string primitives (`str.strip`, `str.split`,
`str.splitlines`, slicing with negative indices, `str.rfind`) are given
executable shallow embeddings below, following CPython semantics.
-/

/-- Python `str.isspace` for a single character: the Unicode whitespace
set used by `str.split()` and `str.strip()` with no arguments. -/
def isPySpace (c : Char) : Bool :=
  c.toNat ∈ [9, 10, 11, 12, 13, 28, 29, 30, 31, 32, 133, 160, 5760,
    8192, 8193, 8194, 8195, 8196, 8197, 8198, 8199, 8200, 8201, 8202,
    8232, 8233, 8239, 8287, 12288]

/-- The characters Python `str.splitlines` treats as line boundaries
(`\r\n` is additionally merged into a single boundary by the scanner). -/
def isLineBoundary (c : Char) : Bool :=
  c.toNat ∈ [10, 11, 12, 13, 28, 29, 30, 133, 8232, 8233]

/-- Resolve a (possibly negative) Python slice index against a string of
length `n`, clamping into `[0, n]`. -/
def pyIdx (i : Int) (n : Nat) : Nat :=
  if i < 0 then
    (if (n : Int) + i < 0 then 0 else ((n : Int) + i).toNat)
  else
    (if i ≤ (n : Int) then i.toNat else n)

/-- Python slice `t[a:b]` with integer (possibly negative) bounds. -/
def pySlice (t : List Char) (a b : Int) : List Char :=
  (t.take (pyIdx b t.length)).drop (pyIdx a t.length)

/-- Index of the last occurrence of `c` in `l`, if any. -/
def lastIdxOf : List Char → Char → Option Nat
  | [], _ => none
  | a :: as, c =>
    match lastIdxOf as c with
    | some k => some (k + 1)
    | none => if a = c then some 0 else none

/-- Python `t.rfind(c, a, b)` for a single-character needle: the largest
index `p` with `a ≤ p < b` (indices resolved as slice bounds) such that
`t[p] = c`, or `-1` if there is none. -/
def pyRfind (t : List Char) (c : Char) (a b : Int) : Int :=
  match lastIdxOf (pySlice t a b) c with
  | some k => (pyIdx a t.length : Int) + k
  | none => -1

/-- Python `str.strip()`: remove leading and trailing whitespace. -/
def pyStrip (l : List Char) : List Char :=
  (((l.dropWhile isPySpace).reverse.dropWhile isPySpace).reverse)

/-- Scanner for Python `str.split()` (no separator argument):
`acc` holds the current word, reversed. -/
def pySplitAux : List Char → List Char → List (List Char)
  | [], acc => if acc.isEmpty then [] else [acc.reverse]
  | c :: rest, acc =>
    if isPySpace c then
      (if acc.isEmpty then pySplitAux rest [] else acc.reverse :: pySplitAux rest [])
    else
      pySplitAux rest (c :: acc)

/-- Python `str.split()`: split on runs of whitespace, dropping empties. -/
def pySplit (l : List Char) : List (List Char) :=
  pySplitAux l []

/-- Scanner for Python `str.splitlines()`: `acc` holds the current line,
reversed; a `\r\n` pair counts as a single boundary. -/
def splitlinesAux : List Char → List Char → List (List Char)
  | [], acc => if acc.isEmpty then [] else [acc.reverse]
  | c :: rest, acc =>
    if c = '\r' then
      acc.reverse ::
        (match rest with
         | [] => []
         | c2 :: rest2 =>
           if c2 = '\n' then splitlinesAux rest2 [] else splitlinesAux (c2 :: rest2) [])
    else if isLineBoundary c then
      acc.reverse :: splitlinesAux rest []
    else
      splitlinesAux rest (c :: acc)

/-- Python `str.splitlines()`. -/
def splitlines (l : List Char) : List (List Char) :=
  splitlinesAux l []

/-- Python `sep.join(parts)`. -/
def pyJoin (sep : List Char) : List (List Char) → List Char
  | [] => []
  | [l] => l
  | l :: l2 :: rest => l ++ sep ++ pyJoin sep (l2 :: rest)

/-- Model of `DocumentService._clean_text`: replace NUL bytes by spaces, replace
control characters other than newline and tab by spaces, normalize runs
of whitespace inside every line to single spaces, and drop empty lines. -/
def clean_text (t : List Char) : List Char :=
  if t.isEmpty then []
  else
    let c1 := t.map fun ch => if ch = Char.ofNat 0 then ' ' else ch
    let c2 := c1.map fun ch =>
      if ch = '\n' ∨ ch = '\t' ∨ 32 ≤ ch.toNat then ch else ' '
    let lines := (splitlines c2).map fun line => pyJoin [' '] (pySplit line)
    pyJoin ['\n'] (lines.filter fun line => ¬line.isEmpty)

example : clean_text ("  a\x00b \n\n x  y ".toList) = "a b\nx y".toList := by decide
example : pySlice "abcdef".toList (-3) 5 = "de".toList := by rfl
example : pyRfind "ab.cd".toList '.' (-90) 4 = 2 := by rfl
example : pyRfind "ab.cd".toList '!' 0 5 = -1 := by rfl
example : pyStrip "  ab c  ".toList = "ab c".toList := by rfl

/-!
## Chunker (`DocumentService._split_into_chunks`)

The Python loop keeps an integer cursor `start` that can become
negative (when the sentence-boundary adjustment pulls `end` below
`start + chunk_overlap`), so the cursor is modelled as `Int` and slices
use full Python index resolution.  The loop itself is modelled with
explicit fuel; `split_into_chunks` supplies `text.length + 1` steps,
which is shown sufficient whenever the cursor strictly advances.
-/

/-- One chunk dictionary produced by `_split_into_chunks`. -/
structure PyChunk where
  document_id : String
  chunk_index : Nat
  content : List Char
  filename : String
  page : Option Nat
  start_pos : Int
  end_pos : Int
  length : Nat
  deriving DecidableEq, Repr

/-- The value `max(last_period, last_exclamation, last_question)`: the last sentence
terminator in the 100 characters before the candidate end `start + chunk_size`. -/
def sentenceEnd (text : List Char) (chunk_size : Nat) (start : Int) : Int :=
  max (pyRfind text '.' (start + chunk_size - 100) (start + chunk_size))
    (max (pyRfind text '!' (start + chunk_size - 100) (start + chunk_size))
      (pyRfind text '?' (start + chunk_size - 100) (start + chunk_size)))

/-- The `end` position computed by one iteration of the chunk loop:
`start + chunk_size`, pulled back to just past the last sentence
terminator found in the final 100 characters when not at text end. -/
def chunkEnd (text : List Char) (chunk_size : Nat) (start : Int) : Int :=
  if start + chunk_size < (text.length : Int) then
    (if start < sentenceEnd text chunk_size start then sentenceEnd text chunk_size start + 1
     else start + chunk_size)
  else start + chunk_size

/-- The cursor position for the next iteration:
`end - chunk_overlap` while not at text end, else `end`. -/
def nextStart (text : List Char) (chunk_size chunk_overlap : Nat) (start : Int) : Int :=
  let e := chunkEnd text chunk_size start
  if e < (text.length : Int) then e - chunk_overlap else e

/-- Fuel-indexed model of the `while start < len(text)` loop of
`_split_into_chunks`. -/
def splitLoop (text : List Char) (document_id : String) (filename : Option String)
    (page : Option Nat) (chunk_size chunk_overlap : Nat) :
    Nat → Int → Nat → List PyChunk
  | 0, _, _ => []
  | fuel + 1, start, chunk_index =>
    if start < (text.length : Int) then
      let e := chunkEnd text chunk_size start
      let chunk_text := pyStrip (pySlice text start e)
      let start2 := nextStart text chunk_size chunk_overlap start
      if chunk_text.isEmpty then
        splitLoop text document_id filename page chunk_size chunk_overlap fuel start2 chunk_index
      else
        { document_id := document_id
          chunk_index := chunk_index
          content := chunk_text
          filename := filename.getD "unknown"
          page := page
          start_pos := start
          end_pos := e
          length := chunk_text.length } ::
          splitLoop text document_id filename page chunk_size chunk_overlap fuel start2
            (chunk_index + 1)
    else []

/-- Model of `DocumentService._split_into_chunks` (fuel set large enough for every
terminating run of the Python loop). -/
def split_into_chunks (text : List Char) (document_id : String)
    (filename : Option String := none) (page : Option Nat := none)
    (chunk_size : Nat := 1000) (chunk_overlap : Nat := 200) : List PyChunk :=
  splitLoop text document_id filename page chunk_size chunk_overlap (text.length + 1) 0 0

example :
    (split_into_chunks "One. Two! Three?".toList "d" none none 1000 200).map (·.content) =
      ["One. Two! Three?".toList] := by decide

example :
    (split_into_chunks "abcde. fghij".toList "d" none none 8 2).map (·.content) =
      ["abcde.".toList, "e. fghij".toList] := by decide


/-!
## RAG orchestrator (`RAGService`)

Collaborator calls are modelled by their outcomes.
`VectorService.similarity_search` never raises — every failure of its
collection lookup, query-embedding computation, or index query is caught
inside it and an empty chunk list is returned (`similarity_search`
below) — so the non-streaming `query` takes the retrieved chunk list
directly; the single-shot generation call is the one step that can raise
into `query`'s try block and is an `Except` value.  The streaming
generator is the list of text fragments it yields
(`LMStudioService.generate_streaming_response` tags an error by yielding
a fragment starting with `"ERROR:"`), and `stream_query`'s `Except`
argument models its own outer `except` handler (rag_service.py:196-198),
which converts an exception raised after the first yield into a single
error event.  Wall-clock `processing_time` is outside the embedding.
-/

/-- Model of `DocumentChunk` (app/models/document.py); `metadata` values are
modelled as strings, `similarity_score` as a rational. -/
structure DocumentChunk where
  id : String
  document_id : String
  chunk_index : Nat
  content : List Char
  metadata : List (String × String)
  similarity_score : Option ℚ
  deriving DecidableEq, Repr

/-- Model of `ChatSource` (app/models/chat.py). -/
structure ChatSource where
  document_id : String
  filename : String
  page : Option String
  content_preview : List Char
  similarity_score : ℚ
  deriving DecidableEq, Repr

/-- A value stored in the `model_info` dictionary. -/
inductive MIVal where
  | s (v : String)
  | b (v : Bool)
  | n (v : Nat)
  | q (v : ℚ)
  deriving DecidableEq, Repr

/-- Model of `ChatResponse` (app/models/chat.py); `processing_time` (wall clock)
is not modelled. -/
structure ChatResponse where
  answer : String
  sources : List ChatSource
  model_info : List (String × MIVal)
  tokens_used : Option Nat
  deriving DecidableEq, Repr

/-- Result of `LMStudioService.generate_response`: the orchestrator reads
`content`, `model` (defaulted) and `usage["total_tokens"]`. -/
structure LLMResult where
  content : String
  model : Option String
  total_tokens : Option Nat
  deriving DecidableEq, Repr

/-- Python `dict.get(key, default)` over the modelled string metadata. -/
def dictGet (m : List (String × String)) (key default : String) : String :=
  match m.find? (fun kv => kv.1 == key) with
  | some kv => kv.2
  | none => default

/-- Round half to even at the last kept digit: Python `round(x, 3)`
modelled over the rationals. -/
def roundHalfEven (q : ℚ) : Int :=
  let f := ⌊q⌋
  if q - f < 1 / 2 then f
  else if 1 / 2 < q - f then f + 1
  else if Even f then f else f + 1

/-- Python `round(x, 3)`. -/
def round3 (q : ℚ) : ℚ :=
  (roundHalfEven (q * 1000) : ℚ) / 1000

/-- The `ChatSource` built for one chunk in `RAGService._prepare_sources`. -/
def mkChatSource (chunk : DocumentChunk) : ChatSource :=
  { document_id := chunk.document_id
    filename := dictGet chunk.metadata "filename" "Unknown document"
    page := some (dictGet chunk.metadata "page" "unknown")
    content_preview :=
      if 200 < chunk.content.length then chunk.content.take 200 ++ "...".toList
      else chunk.content
    similarity_score := round3 ((chunk.similarity_score).getD 0) }

/-- Model of `RAGService._prepare_sources`. -/
def prepare_sources (chunks : List DocumentChunk) : List ChatSource :=
  chunks.map mkChatSource

/-- A map with the (1-based, here explicit) position, as produced by
Python `enumerate(chunks, 1)`. -/
def mapFrom {α β : Type} (f : Nat → α → β) : Nat → List α → List β
  | _, [] => []
  | i, a :: as => f i a :: mapFrom f (i + 1) as

/-- The context block built for one chunk in `RAGService._prepare_context`
(the stripped multi-line f-string). -/
def mkContextPart (i : Nat) (chunk : DocumentChunk) : List Char :=
  pyStrip
    (("\n[Source " ++ Nat.repr i ++ "]\nDocument: " ++
        dictGet chunk.metadata "filename" "Nieznany dokument" ++
        "\nPage: " ++ dictGet chunk.metadata "page" "nieznana" ++
        "\nContent: ").toList ++ chunk.content ++ "\n            ".toList)

/-- The per-chunk context parts of `RAGService._prepare_context`, in
enumeration order. -/
def contextParts (chunks : List DocumentChunk) : List (List Char) :=
  mapFrom (fun i chunk => mkContextPart i chunk) 1 chunks

/-- Model of `RAGService._prepare_context`. -/
def prepare_context (chunks : List DocumentChunk) : List Char :=
  pyJoin "\n\n".toList (contextParts chunks)

/-- The fallback answer literal of the non-streaming empty-retrieval path. -/
def noDocsAnswer : String :=
  "I couldn't find any relevant documents to answer your question. Try uploading relevant documents to the collection or ask a different question."

/-- The answer prefix of the non-streaming error path. -/
def errAnswerPre : String :=
  "Przepraszam, wystąpił błąd podczas przetwarzania pytania: "

/-- Model of `VectorService.similarity_search`, as a function of the
outcomes of its three fallible steps: the collection lookup, the
query-embedding computation, and the index query.  Every failure is
caught inside the function (vector_service.py:103-105 and 132-134) and an
empty chunk list is returned — this function never raises into its
caller.  A successful index query yields the chunk list built from the
results. -/
def similarity_search (get_collection : Except String Unit)
    (query_embedding : Except String (List ℚ))
    (results : Except String (List DocumentChunk)) : List DocumentChunk :=
  match get_collection with
  | .error _ => []
  | .ok _ =>
    match query_embedding with
    | .error _ => []
    | .ok _ =>
      match results with
      | .error _ => []
      | .ok chunks => chunks

/-- Model of `RAGService.query`: the non-streaming orchestrator path, as a
function of the retrieved chunk list and the generation outcome.
`similarity_search` never raises, so retrieval reaches this function only
as a (possibly empty) chunk list; the generation call is the step that
can raise inside the `try` block, and the `except` branch converts it
into the error response. -/
def query (relevant_chunks : List DocumentChunk)
    (generation : Except String LLMResult) (temperature : ℚ) : ChatResponse :=
  if relevant_chunks.isEmpty then
    { answer := noDocsAnswer
      sources := []
      model_info :=
        [("model", .s "llama-3.1-8b-instruct"), ("local", .b true), ("chunks_used", .n 0)]
      tokens_used := none }
  else
    match generation with
    | .error e =>
      { answer := errAnswerPre ++ e
        sources := []
        model_info := [("error", .s e)]
        tokens_used := none }
    | .ok r =>
      { answer := r.content
        sources := prepare_sources relevant_chunks
        model_info :=
          [("model", .s (r.model.getD "llama-3.1-8b-instruct")), ("local", .b true),
            ("chunks_used", .n relevant_chunks.length), ("temperature", .q temperature)]
        tokens_used := r.total_tokens }

/-- One event yielded by `RAGService.stream_query`. -/
inductive StreamEvent where
  | sources_search
  | answer (content : String) (done : Bool)
  | sources (sources : List ChatSource)
  | generation_start
  | token (content : String)
  | error (error : String)
  | done
  deriving DecidableEq, Repr

/-- Python `token.startswith("ERROR:")`: the error tag of the streaming
generator, as a prefix test on the code points. -/
def errorTagged (t : String) : Bool :=
  "ERROR:".toList.isPrefixOf t.toList

/-- The events yielded by the `async for token in ...` loop of
`stream_query`, including the unconditional trailing `done` event (the
`break` on an error-tagged fragment leaves the loop but not the
generator body). -/
def streamTokens : List String → List StreamEvent
  | [] => [.done]
  | t :: rest =>
    if errorTagged t then [.error t, .done]
    else .token t :: streamTokens rest

/-- Model of `RAGService.stream_query`, as a function of the retrieval outcome and
the fragment list yielded by the streaming generator. -/
def stream_query (retrieval : Except String (List DocumentChunk))
    (fragments : List String) : List StreamEvent :=
  match retrieval with
  | .error e => [.sources_search, .error e]
  | .ok relevant_chunks =>
    if relevant_chunks.isEmpty then
      [.sources_search,
        .answer "No relevant documents were found to answer this question." true]
    else
      .sources_search :: .sources (prepare_sources relevant_chunks) ::
        .generation_start :: streamTokens fragments

/-!
## Lemmas about the string primitives
-/

theorem pyStrip_eq_rdropWhile (l : List Char) :
    pyStrip l = List.rdropWhile isPySpace (List.dropWhile isPySpace l) := rfl

theorem dropWhile_pyStrip (l : List Char) :
    List.dropWhile isPySpace (pyStrip l) = pyStrip l := by
  rcases h : pyStrip l with _ | ⟨a, as⟩
  · rfl
  · have hpre := List.rdropWhile_prefix isPySpace (List.dropWhile isPySpace l)
    rw [← pyStrip_eq_rdropWhile, h] at hpre
    obtain ⟨t, ht⟩ := hpre
    have h2 : List.dropWhile isPySpace l = a :: (as ++ t) := by
      rw [← ht]; simp
    have hne : List.dropWhile isPySpace l ≠ [] := by rw [h2]; simp
    have hh := List.head_dropWhile_not isPySpace l hne
    have h5 := List.head?_eq_head hne
    have h7 : (List.dropWhile isPySpace l).head? = some a := by rw [h2]; rfl
    rw [h7] at h5
    have h8 : a = (List.dropWhile isPySpace l).head hne := Option.some_injective _ h5
    rw [← h8] at hh
    simp [List.dropWhile_cons, hh]

theorem pyStrip_idem (l : List Char) : pyStrip (pyStrip l) = pyStrip l := by
  rw [pyStrip_eq_rdropWhile (pyStrip l), dropWhile_pyStrip, pyStrip_eq_rdropWhile l]
  exact List.rdropWhile_idempotent isPySpace (List.dropWhile isPySpace l)

theorem length_pyStrip_le (l : List Char) : (pyStrip l).length ≤ l.length := by
  unfold pyStrip
  calc ((((l.dropWhile isPySpace).reverse.dropWhile isPySpace)).reverse).length
      = ((l.dropWhile isPySpace).reverse.dropWhile isPySpace).length := by
        rw [List.length_reverse]
    _ ≤ (l.dropWhile isPySpace).reverse.length :=
        (List.dropWhile_sublist _).length_le
    _ = (l.dropWhile isPySpace).length := by rw [List.length_reverse]
    _ ≤ l.length := (List.dropWhile_sublist _).length_le

theorem pySplitAux_append_word (w : List Char) :
    ∀ (s acc : List Char), (∀ c ∈ w, isPySpace c = false) →
      pySplitAux (w ++ s) acc = pySplitAux s (w.reverse ++ acc) := by
  induction w with
  | nil => intro s acc _; simp
  | cons c w ih =>
    intro s acc hw
    have hc : isPySpace c = false := hw c (by simp)
    simp only [List.cons_append, pySplitAux, hc, Bool.false_eq_true, if_false,
      List.append_eq]
    rw [ih s (c :: acc) fun x hx => hw x (by simp [hx])]
    simp

theorem pyJoin_cons_cons (sep : List Char) (l l2 : List Char) (rest : List (List Char)) :
    pyJoin sep (l :: l2 :: rest) = l ++ sep ++ pyJoin sep (l2 :: rest) := rfl

theorem pyJoin_ne_nil (sep : List Char) (w : List Char) (rest : List (List Char))
    (hw : w ≠ []) : pyJoin sep (w :: rest) ≠ [] := by
  cases rest with
  | nil => simpa [pyJoin]
  | cons l2 rest => simp [pyJoin_cons_cons, hw]

theorem pySplit_join (ws : List (List Char))
    (hws : ∀ w ∈ ws, w ≠ [] ∧ ∀ c ∈ w, isPySpace c = false) :
    pySplit (pyJoin [' '] ws) = ws := by
  induction ws with
  | nil => rfl
  | cons w ws ih =>
    have hw := hws w (by simp)
    cases ws with
    | nil =>
      show pySplitAux (pyJoin [' '] [w]) [] = [w]
      have : pyJoin [' '] [w] = w ++ [] := by simp [pyJoin]
      rw [this, pySplitAux_append_word w [] [] hw.2]
      simp [pySplitAux, hw.1]
    | cons w2 rest =>
      show pySplitAux (pyJoin [' '] (w :: w2 :: rest)) [] = w :: w2 :: rest
      rw [pyJoin_cons_cons]
      have : w ++ [' '] ++ pyJoin [' '] (w2 :: rest) =
          w ++ (' ' :: pyJoin [' '] (w2 :: rest)) := by simp
      rw [this, pySplitAux_append_word w _ [] hw.2]
      have hsp : isPySpace ' ' = true := by decide
      have hrev : (w.reverse ++ []).isEmpty = false := by
        simp [List.isEmpty_iff, hw.1]
      simp only [pySplitAux, hsp, if_true, hrev, Bool.false_eq_true, if_false]
      rw [List.append_nil, List.reverse_reverse]
      exact congrArg (w :: ·) (ih fun x hx => hws x (by simp [hx]))

theorem pySplitAux_mem {P : Char → Prop} :
    ∀ (s acc : List Char), (∀ c ∈ s, P c) → (∀ c ∈ acc, P c ∧ isPySpace c = false) →
      ∀ w ∈ pySplitAux s acc, w ≠ [] ∧ ∀ c ∈ w, P c ∧ isPySpace c = false := by
  intro s
  induction s with
  | nil =>
    intro acc _ hacc w hw
    rcases hempty : acc.isEmpty with _ | _
    · simp only [pySplitAux, hempty, Bool.false_eq_true, if_false, List.mem_singleton] at hw
      subst hw
      refine ⟨by simpa [List.isEmpty_iff] using hempty, fun c hc => hacc c (by simpa using hc)⟩
    · simp [pySplitAux, hempty] at hw
  | cons c s ih =>
    intro acc hs hacc w hw
    have hsrest : ∀ x ∈ s, P x := fun x hx => hs x (by simp [hx])
    rcases hc : isPySpace c with _ | _
    · simp only [pySplitAux, hc, Bool.false_eq_true, if_false] at hw
      refine ih (c :: acc) hsrest ?_ w hw
      intro x hx
      rcases List.mem_cons.mp hx with h | h
      · exact h ▸ ⟨hs c (by simp), hc⟩
      · exact hacc x h
    · simp only [pySplitAux, hc, if_true] at hw
      rcases hempty : acc.isEmpty with _ | _
      · rw [hempty] at hw
        simp only [Bool.false_eq_true, if_false, List.mem_cons] at hw
        rcases hw with h | h
        · subst h
          refine ⟨by simpa [List.isEmpty_iff] using hempty,
            fun x hx => hacc x (by simpa using hx)⟩
        · exact ih [] hsrest (by simp) w h
      · rw [hempty] at hw
        simp only [if_true] at hw
        exact ih [] hsrest (by simp) w hw

theorem isLineBoundary_cr : isLineBoundary '\r' = true := by decide

theorem splitlinesAux_nil (acc : List Char) :
    splitlinesAux [] acc = if acc.isEmpty then [] else [acc.reverse] := by
  rw [splitlinesAux.eq_def]

theorem splitlinesAux_cons_solid (c : Char) (s acc : List Char) (hcr : ¬c = '\r')
    (hc : isLineBoundary c = false) :
    splitlinesAux (c :: s) acc = splitlinesAux s (c :: acc) := by
  rw [splitlinesAux.eq_def]
  simp [hcr, hc]

theorem splitlinesAux_cons_nl (s acc : List Char) :
    splitlinesAux ('\n' :: s) acc = acc.reverse :: splitlinesAux s [] := by
  rw [splitlinesAux.eq_def]
  have h1 : ¬(('\n' : Char) = '\r') := by decide
  have h2 : isLineBoundary '\n' = true := by decide
  simp [h1, h2]

theorem splitlinesAux_append_line (w : List Char) :
    ∀ (s acc : List Char), (∀ c ∈ w, isLineBoundary c = false) →
      splitlinesAux (w ++ s) acc = splitlinesAux s (w.reverse ++ acc) := by
  induction w with
  | nil => intro s acc _; simp
  | cons c w ih =>
    intro s acc hw
    have hc : isLineBoundary c = false := hw c (by simp)
    have hcr : ¬c = '\r' := by
      intro h
      rw [h, isLineBoundary_cr] at hc
      cases hc
    rw [List.cons_append, splitlinesAux_cons_solid c _ _ hcr hc]
    rw [ih s (c :: acc) fun x hx => hw x (by simp [hx])]
    simp

theorem splitlines_join (ls : List (List Char))
    (hls : ∀ l ∈ ls, l ≠ [] ∧ ∀ c ∈ l, isLineBoundary c = false) :
    splitlines (pyJoin ['\n'] ls) = ls := by
  induction ls with
  | nil => rfl
  | cons l ls ih =>
    have hl := hls l (by simp)
    cases ls with
    | nil =>
      show splitlinesAux (pyJoin ['\n'] [l]) [] = [l]
      have : pyJoin ['\n'] [l] = l ++ [] := by simp [pyJoin]
      rw [this, splitlinesAux_append_line l [] [] hl.2, splitlinesAux_nil]
      have : (l.reverse ++ []).isEmpty = false := by
        simp [List.isEmpty_iff, hl.1]
      simp [this, hl.1]
    | cons l2 rest =>
      show splitlinesAux (pyJoin ['\n'] (l :: l2 :: rest)) [] = l :: l2 :: rest
      rw [pyJoin_cons_cons]
      have : l ++ ['\n'] ++ pyJoin ['\n'] (l2 :: rest) =
          l ++ ('\n' :: pyJoin ['\n'] (l2 :: rest)) := by simp
      rw [this, splitlinesAux_append_line l _ [] hl.2, splitlinesAux_cons_nl]
      rw [List.append_nil, List.reverse_reverse]
      exact congrArg (l :: ·) (ih fun x hx => hls x (by simp [hx]))

theorem splitlinesAux_mem {P : Char → Prop} (hP : ¬P '\r') :
    ∀ (s acc : List Char), (∀ c ∈ s, P c) → (∀ c ∈ acc, P c ∧ isLineBoundary c = false) →
      ∀ l ∈ splitlinesAux s acc, ∀ c ∈ l, P c ∧ isLineBoundary c = false := by
  intro s
  induction s with
  | nil =>
    intro acc _ hacc l hl
    rw [splitlinesAux_nil] at hl
    rcases hempty : acc.isEmpty with _ | _
    · rw [hempty] at hl
      simp only [Bool.false_eq_true, if_false, List.mem_singleton] at hl
      subst hl
      exact fun c hc => hacc c (by simpa using hc)
    · rw [hempty] at hl
      simp at hl
  | cons c s ih =>
    intro acc hs hacc l hl
    have hsrest : ∀ x ∈ s, P x := fun x hx => hs x (by simp [hx])
    have hcr : ¬c = '\r' := fun h => hP (h ▸ hs c (by simp))
    rcases hc : isLineBoundary c with _ | _
    · rw [splitlinesAux_cons_solid c _ _ hcr hc] at hl
      refine ih (c :: acc) hsrest ?_ l hl
      intro x hx
      rcases List.mem_cons.mp hx with h | h
      · exact h ▸ ⟨hs c (by simp), hc⟩
      · exact hacc x h
    · rw [splitlinesAux.eq_def] at hl
      simp only [hcr, if_false, hc, if_true, List.mem_cons] at hl
      rcases hl with h | h
      · subst h
        exact fun x hx => hacc x (by simpa using hx)
      · exact ih [] hsrest (by simp) l h

/-- Characters that can appear inside a word of normalized text: not
whitespace, not a line boundary, and not a control character. -/
def solidChar (c : Char) : Prop :=
  isPySpace c = false ∧ isLineBoundary c = false ∧ 32 ≤ c.toNat

/-- A word of normalized text. -/
def goodWord (w : List Char) : Prop :=
  w ≠ [] ∧ ∀ c ∈ w, solidChar c

/-- A line of normalized text: words joined by single spaces. -/
def goodLine (l : List Char) : Prop :=
  ∃ ws, l = pyJoin [' '] ws ∧ ws ≠ [] ∧ ∀ w ∈ ws, goodWord w

/-- Normalized text: non-empty lines joined by single newlines. -/
def canonicalText (s : List Char) : Prop :=
  ∃ ls, s = pyJoin ['\n'] ls ∧ ∀ l ∈ ls, goodLine l

theorem pyJoin_chars (sep : List Char) :
    ∀ (ls : List (List Char)), ∀ c ∈ pyJoin sep ls, c ∈ sep ∨ ∃ l ∈ ls, c ∈ l := by
  intro ls
  induction ls with
  | nil => intro c hc; cases hc
  | cons l ls ih =>
    intro c hc
    cases ls with
    | nil =>
      exact Or.inr ⟨l, by simp, hc⟩
    | cons l2 rest =>
      rw [pyJoin_cons_cons] at hc
      rcases List.mem_append.mp hc with h | h
      · rcases List.mem_append.mp h with h2 | h2
        · exact Or.inr ⟨l, by simp, h2⟩
        · exact Or.inl h2
      · rcases ih c h with h2 | ⟨l3, hl3, hc3⟩
        · exact Or.inl h2
        · exact Or.inr ⟨l3, by simp [hl3], hc3⟩

theorem goodLine_chars (l : List Char) (h : goodLine l) :
    l ≠ [] ∧ ∀ c ∈ l, c = ' ' ∨ solidChar c := by
  obtain ⟨ws, rfl, hne, hws⟩ := h
  constructor
  · cases ws with
    | nil => exact absurd rfl hne
    | cons w rest => exact pyJoin_ne_nil [' '] w rest (hws w (by simp)).1
  · intro c hc
    rcases pyJoin_chars [' '] ws c hc with h | ⟨w, hw, hcw⟩
    · exact Or.inl (by simpa using h)
    · exact Or.inr ((hws w hw).2 c hcw)

theorem canonical_clean_text (t : List Char) : canonicalText (clean_text t) := by
  rcases ht : t.isEmpty with _ | _
  · rw [clean_text, ht]
    simp only [Bool.false_eq_true, if_false]
    refine ⟨_, rfl, ?_⟩
    intro l hl
    rw [List.mem_filter] at hl
    obtain ⟨hl1, hl2⟩ := hl
    obtain ⟨line0, hline0, rfl⟩ := List.mem_map.mp hl1
    refine ⟨pySplit line0, rfl, ?_, ?_⟩
    · intro hnil
      rw [hnil] at hl2
      simp [pyJoin] at hl2
    · intro w hw
      have hc2 : ∀ ch ∈ (t.map fun ch => if ch = Char.ofNat 0 then ' ' else ch).map
          (fun ch => if ch = '\n' ∨ ch = '\t' ∨ 32 ≤ ch.toNat then ch else ' '),
          ch = '\n' ∨ ch = '\t' ∨ 32 ≤ ch.toNat := by
        intro ch hch
        obtain ⟨x, _, rfl⟩ := List.mem_map.mp hch
        by_cases hx : x = '\n' ∨ x = '\t' ∨ 32 ≤ x.toNat
        · rw [if_pos hx]
          exact hx
        · simp [hx]
      have hline := splitlinesAux_mem
        (P := fun c => c = '\n' ∨ c = '\t' ∨ 32 ≤ c.toNat) (by decide) _ [] hc2
        (by simp) line0 hline0
      have hword := pySplitAux_mem
        (P := fun c => (c = '\n' ∨ c = '\t' ∨ 32 ≤ c.toNat) ∧ isLineBoundary c = false)
        line0 [] hline (by simp) w hw
      refine ⟨hword.1, ?_⟩
      intro c hc
      obtain ⟨⟨hq, hb⟩, hsp⟩ := hword.2 c hc
      refine ⟨hsp, hb, ?_⟩
      rcases hq with h | h | h
      · rw [h] at hb; cases hb
      · rw [h] at hsp; cases hsp
      · exact h
  · rw [clean_text, ht]
    simp only [if_true]
    exact ⟨[], rfl, by simp⟩

theorem clean_text_canonical (s : List Char) (h : canonicalText s) : clean_text s = s := by
  obtain ⟨ls, rfl, hls⟩ := h
  cases ls with
  | nil => rfl
  | cons l0 rest =>
    have hl0 := goodLine_chars l0 (hls l0 (by simp))
    have hsne : (pyJoin ['\n'] (l0 :: rest)).isEmpty = false := by
      rw [← Bool.not_eq_true, List.isEmpty_iff]
      exact pyJoin_ne_nil ['\n'] l0 rest hl0.1
    rw [clean_text, hsne]
    simp only [Bool.false_eq_true, if_false]
    have hchars : ∀ c ∈ pyJoin ['\n'] (l0 :: rest), c = '\n' ∨ c = ' ' ∨ solidChar c := by
      intro c hc
      rcases pyJoin_chars ['\n'] _ c hc with h | ⟨l, hl, hcl⟩
      · exact Or.inl (by simpa using h)
      · rcases (goodLine_chars l (hls l hl)).2 c hcl with h | h
        · exact Or.inr (Or.inl h)
        · exact Or.inr (Or.inr h)
    have h1 : (pyJoin ['\n'] (l0 :: rest)).map
        (fun ch => if ch = Char.ofNat 0 then ' ' else ch) = pyJoin ['\n'] (l0 :: rest) := by
      refine (List.map_congr_left ?_).trans (List.map_id _)
      intro c hc
      rcases hchars c hc with h | h | h
      · rw [h]; decide
      · rw [h]; decide
      · obtain ⟨-, -, h32⟩ := h
        have hne0 : ¬(c = Char.ofNat 0) := by
          intro he
          rw [he] at h32
          revert h32
          decide
        rw [if_neg hne0, id_eq]
    rw [h1]
    have h2 : (pyJoin ['\n'] (l0 :: rest)).map
        (fun ch => if ch = '\n' ∨ ch = '\t' ∨ 32 ≤ ch.toNat then ch else ' ') =
        pyJoin ['\n'] (l0 :: rest) := by
      refine (List.map_congr_left ?_).trans (List.map_id _)
      intro c hc
      rcases hchars c hc with h | h | h
      · rw [h]; decide
      · rw [h]; decide
      · rw [if_pos (Or.inr (Or.inr h.2.2)), id_eq]
    rw [h2]
    have h3 : splitlines (pyJoin ['\n'] (l0 :: rest)) = l0 :: rest := by
      refine splitlines_join _ ?_
      intro l hl
      have hg := goodLine_chars l (hls l hl)
      refine ⟨hg.1, ?_⟩
      intro c hc
      rcases hg.2 c hc with h | h
      · rw [h]; decide
      · exact h.2.1
    rw [h3]
    have h4 : (l0 :: rest).map (fun line => pyJoin [' '] (pySplit line)) = l0 :: rest := by
      refine (List.map_congr_left ?_).trans (List.map_id _)
      intro l hl
      obtain ⟨ws, rfl, hne, hws⟩ := hls l hl
      rw [pySplit_join ws fun w hw => ⟨(hws w hw).1, fun c hc => ((hws w hw).2 c hc).1⟩,
        id_eq]
    rw [h4]
    refine congrArg (fun x => pyJoin ['\n'] x) ?_
    refine List.filter_eq_self.mpr ?_
    intro a ha
    simp only [List.isEmpty_iff, decide_not]
    simp [(goodLine_chars a (hls a ha)).1]

/-- C9: the text normalizer `_clean_text` is idempotent: applying it to
its own output returns that output unchanged. -/
theorem clean_text_idempotent (t : List Char) :
    clean_text (clean_text t) = clean_text t :=
  clean_text_canonical _ (canonical_clean_text t)

example : clean_text (clean_text "  a\x00b \r\n\n x  y\t".toList) =
    clean_text "  a\x00b \r\n\n x  y\t".toList := by decide

/-!
## Bounds for the chunk loop
-/

theorem pyIdx_le (i : Int) (n : Nat) : pyIdx i n ≤ n := by
  unfold pyIdx
  split_ifs <;> omega

theorem length_pySlice (t : List Char) (a b : Int) :
    (pySlice t a b).length = pyIdx b t.length - pyIdx a t.length := by
  rw [pySlice, List.length_drop, List.length_take,
    Nat.min_eq_left (pyIdx_le b t.length)]

theorem lastIdxOf_lt_length (l : List Char) (c : Char) (k : Nat)
    (h : lastIdxOf l c = some k) : k < l.length := by
  induction l generalizing k with
  | nil => cases h
  | cons a as ih =>
    rw [lastIdxOf] at h
    rcases hm : lastIdxOf as c with _ | k2
    · rw [hm] at h
      simp only at h
      split_ifs at h with ha
      all_goals cases h
      all_goals simp
    · rw [hm] at h
      simp only [Option.some.injEq] at h
      have := ih k2 hm
      simp only [List.length_cons]
      omega

theorem pyRfind_neg_or_lt (t : List Char) (c : Char) (a b : Int) :
    pyRfind t c a b = -1 ∨
      (0 ≤ pyRfind t c a b ∧ pyRfind t c a b < (pyIdx b t.length : Int)) := by
  rcases hm : lastIdxOf (pySlice t a b) c with _ | k
  · left
    rw [pyRfind, hm]
  · right
    have hk := lastIdxOf_lt_length _ _ _ hm
    rw [length_pySlice] at hk
    have hv : pyRfind t c a b = (pyIdx a t.length : Int) + k := by
      rw [pyRfind, hm]
    rw [hv]
    constructor
    · omega
    · omega

theorem pyIdx_sub_le (a : Int) (S n : Nat) : pyIdx (a + S) n - pyIdx a n ≤ S := by
  unfold pyIdx
  split_ifs <;> omega

theorem pyIdx_sub_le_of_le (a e : Int) (S n : Nat) (h0 : 0 < e)
    (he : e ≤ (pyIdx (a + S) n : Int)) : pyIdx e n - pyIdx a n ≤ S := by
  have h2 := pyIdx_sub_le a S n
  have h1 : pyIdx e n ≤ pyIdx (a + S) n := by
    unfold pyIdx at he ⊢
    split_ifs at he ⊢ <;> omega
  omega

theorem sentenceEnd_cases (text : List Char) (S : Nat) (start : Int) :
    sentenceEnd text S start = -1 ∨ 0 ≤ sentenceEnd text S start := by
  have h1 := pyRfind_neg_or_lt text '.' (start + S - 100) (start + S)
  have h2 := pyRfind_neg_or_lt text '!' (start + S - 100) (start + S)
  have h3 := pyRfind_neg_or_lt text '?' (start + S - 100) (start + S)
  unfold sentenceEnd
  rcases max_choice (pyRfind text '.' (start + S - 100) (start + S))
      (max (pyRfind text '!' (start + S - 100) (start + S))
        (pyRfind text '?' (start + S - 100) (start + S))) with h | h <;> rw [h]
  · exact h1.imp id And.left
  · rcases max_choice (pyRfind text '!' (start + S - 100) (start + S))
        (pyRfind text '?' (start + S - 100) (start + S)) with h4 | h4 <;> rw [h4]
    · exact h2.imp id And.left
    · exact h3.imp id And.left

theorem sentenceEnd_lt (text : List Char) (S : Nat) (start : Int) :
    sentenceEnd text S start < (pyIdx (start + S) text.length : Int) := by
  have hb : ∀ c : Char, pyRfind text c (start + S - 100) (start + S) <
      (pyIdx (start + S) text.length : Int) := by
    intro c
    rcases pyRfind_neg_or_lt text c (start + S - 100) (start + S) with h | h
    · rw [h]; omega
    · exact h.2
  exact max_lt (hb '.') (max_lt (hb '!') (hb '?'))

theorem chunkEnd_content_le (text : List Char) (S : Nat) (start : Int) :
    (pyStrip (pySlice text start (chunkEnd text S start))).length ≤ S := by
  refine le_trans (length_pyStrip_le _) ?_
  rw [length_pySlice]
  by_cases h1 : start + (S : Int) < (text.length : Int)
  · by_cases h2 : start < sentenceEnd text S start
    · have he : chunkEnd text S start = sentenceEnd text S start + 1 := by
        simp [chunkEnd, h1, h2]
      rw [he]
      rcases sentenceEnd_cases text S start with h3 | h3
      · rw [h3]
        have h0 : pyIdx (-1 + 1) text.length = 0 := by
          norm_num [pyIdx]
        rw [h0]
        omega
      · have h4 := sentenceEnd_lt text S start
        exact pyIdx_sub_le_of_le start (sentenceEnd text S start + 1) S text.length
          (by omega) (by omega)
    · have he : chunkEnd text S start = start + S := by
        simp [chunkEnd, h1, h2]
      rw [he]
      exact pyIdx_sub_le start S text.length
  · have he : chunkEnd text S start = start + S := by
      simp [chunkEnd, h1]
    rw [he]
    exact pyIdx_sub_le start S text.length

theorem splitLoop_stop (text : List Char) (d : String) (fn : Option String)
    (pg : Option Nat) (S O : Nat) (fuel : Nat) (start : Int) (idx : Nat)
    (h : ¬start < (text.length : Int)) :
    splitLoop text d fn pg S O fuel start idx = [] := by
  cases fuel with
  | zero => rfl
  | succ fuel =>
    simp only [splitLoop]
    rw [if_neg h]

theorem splitLoop_content_le (text : List Char) (d : String) (fn : Option String)
    (pg : Option Nat) (S O : Nat) :
    ∀ (fuel : Nat) (start : Int) (idx : Nat) (c : PyChunk),
      c ∈ splitLoop text d fn pg S O fuel start idx → c.content.length ≤ S := by
  intro fuel
  induction fuel with
  | zero => intro start idx c hc; cases hc
  | succ fuel ih =>
    intro start idx c hc
    simp only [splitLoop] at hc
    by_cases h1 : start < (text.length : Int)
    · rw [if_pos h1] at hc
      by_cases h2 : (pyStrip (pySlice text start (chunkEnd text S start))).isEmpty = true
      · rw [if_pos h2] at hc
        exact ih _ _ c hc
      · rw [if_neg h2] at hc
        rcases List.mem_cons.mp hc with h | h
        · rw [h]
          exact chunkEnd_content_le text S start
        · exact ih _ _ c h
    · rw [if_neg h1] at hc
      cases hc

/-- C10: every chunk emitted by `_split_into_chunks` has content length at
most `chunk_size`: the sentence-boundary adjustment only ever moves the
chunk end earlier, so the bound is `chunk_size` exactly, with no extra
100-character window. -/
theorem split_chunk_length_le (text : List Char) (d : String) (fn : Option String)
    (pg : Option Nat) (S O : Nat) (c : PyChunk)
    (hc : c ∈ split_into_chunks text d fn pg S O) : c.content.length ≤ S :=
  splitLoop_content_le text d fn pg S O _ _ _ c hc

/-- Witness for C10 at a concrete input. -/
theorem split_chunk_length_le_witness :
    (⟨"d", 0, "hel".toList, "unknown", none, 0, 3, 3⟩ : PyChunk).content.length ≤ 3 :=
  split_chunk_length_le "hello world".toList "d" none none 3 1 _ (by decide)

theorem splitLoop_indices (text : List Char) (d : String) (fn : Option String)
    (pg : Option Nat) (S O : Nat) :
    ∀ (fuel : Nat) (start : Int) (idx : Nat),
      (splitLoop text d fn pg S O fuel start idx).map (·.chunk_index) =
        List.range' idx (splitLoop text d fn pg S O fuel start idx).length ∧
      ∀ c ∈ splitLoop text d fn pg S O fuel start idx,
        c.content ≠ [] ∧ pyStrip c.content = c.content := by
  intro fuel
  induction fuel with
  | zero =>
    intro start idx
    exact ⟨rfl, by intro c hc; cases hc⟩
  | succ fuel ih =>
    intro start idx
    simp only [splitLoop]
    by_cases h1 : start < (text.length : Int)
    · rw [if_pos h1]
      by_cases h2 : (pyStrip (pySlice text start (chunkEnd text S start))).isEmpty = true
      · rw [if_pos h2]
        exact ih _ _
      · rw [if_neg h2]
        obtain ⟨ih1, ih2⟩ := ih (nextStart text S O start) (idx + 1)
        constructor
        · simp only [List.map_cons, List.length_cons, ih1]
          rw [List.range'_succ]
        · intro c hc
          rcases List.mem_cons.mp hc with h | h
          · rw [h]
            refine ⟨?_, pyStrip_idem _⟩
            intro hnil
            apply h2
            rw [List.isEmpty_iff]
            exact hnil
          · exact ih2 c h
    · rw [if_neg h1]
      exact ⟨rfl, by intro c hc; cases hc⟩

/-- C7: the chunk sequence produced by `_split_into_chunks` carries
`chunk_index` values forming a contiguous 0-based sequence with no gaps or
repeats, and every emitted chunk content is non-empty and already trimmed
(so it stays non-empty after trimming). -/
theorem split_chunk_indices (text : List Char) (d : String) (fn : Option String)
    (pg : Option Nat) (S O : Nat) :
    (split_into_chunks text d fn pg S O).map (·.chunk_index) =
      List.range (split_into_chunks text d fn pg S O).length ∧
    ∀ c ∈ split_into_chunks text d fn pg S O,
      c.content ≠ [] ∧ pyStrip c.content = c.content := by
  have h := splitLoop_indices text d fn pg S O (text.length + 1) 0 0
  exact ⟨by rw [List.range_eq_range']; exact h.1, h.2⟩

/-- Witness for C7 at a concrete input. -/
theorem split_chunk_indices_witness :
    ((split_into_chunks "ab. cd".toList "d" none none 4 1).map (·.chunk_index) =
      List.range (split_into_chunks "ab. cd".toList "d" none none 4 1).length) ∧
    ((⟨"d", 0, "ab.".toList, "unknown", none, 0, 3, 3⟩ : PyChunk).content ≠ [] ∧
      pyStrip (⟨"d", 0, "ab.".toList, "unknown", none, 0, 3, 3⟩ : PyChunk).content =
        (⟨"d", 0, "ab.".toList, "unknown", none, 0, 3, 3⟩ : PyChunk).content) :=
  ⟨(split_chunk_indices "ab. cd".toList "d" none none 4 1).1,
    (split_chunk_indices "ab. cd".toList "d" none none 4 1).2 _ (by decide)⟩

/-- C8 (amended): a text of length exactly `chunk_size` with no sentence
terminators and non-whitespace content yields exactly one chunk whose
content is the trimmed input.  (If the text trims to empty — e.g. all
whitespace — zero chunks are produced; see the counterexample.) -/
theorem split_single_chunk (text : List Char) (d : String) (fn : Option String)
    (pg : Option Nat) (S O : Nat) (hlen : text.length = S)
    (_hterm : ∀ c ∈ text, c ≠ '.' ∧ c ≠ '!' ∧ c ≠ '?')
    (hne : pyStrip text ≠ []) :
    split_into_chunks text d fn pg S O =
      [⟨d, 0, pyStrip text, fn.getD "unknown", pg, 0, (S : Int),
        (pyStrip text).length⟩] := by
  have hS : 0 < S := by
    rcases htext : text with _ | ⟨c, cs⟩
    · rw [htext] at hne
      exact absurd rfl hne
    · rw [← hlen, htext]
      simp
  have h1 : (0 : Int) < (text.length : Int) := by
    rw [hlen]
    exact_mod_cast hS
  have he : chunkEnd text S 0 = (S : Int) := by
    rw [chunkEnd, if_neg]
    · simp
    · rw [hlen]
      simp
  have hslice : pySlice text 0 (S : Int) = text := by
    rw [pySlice]
    have hsi : pyIdx (S : Int) text.length = text.length := by
      rw [hlen]
      unfold pyIdx
      split_ifs <;> omega
    have h0i : pyIdx 0 text.length = 0 := by
      unfold pyIdx
      split_ifs <;> omega
    rw [hsi, h0i, List.take_length, List.drop_zero]
  have hie : (pyStrip text).isEmpty = false := by
    rw [← Bool.not_eq_true, List.isEmpty_iff]
    exact hne
  have hns : nextStart text S O 0 = (S : Int) := by
    simp only [nextStart, he]
    rw [if_neg]
    rw [hlen]
    simp
  unfold split_into_chunks
  simp only [splitLoop]
  rw [if_pos h1, he, hslice, hie]
  simp only [Bool.false_eq_true, if_false]
  rw [hns, splitLoop_stop text d fn pg S O text.length (S : Int) 1 (by rw [hlen]; simp)]

/-- C8 counterexample: an all-whitespace text of length exactly
`chunk_size = 3` containing no sentence terminators yields zero chunks,
not one: the trimmed slice is empty and is skipped. -/
theorem split_single_chunk_counterexample :
    "   ".toList.length = 3 ∧
    (∀ c ∈ "   ".toList, c ≠ '.' ∧ c ≠ '!' ∧ c ≠ '?') ∧
    split_into_chunks "   ".toList "d" none none 3 1 = [] :=
  ⟨by decide, by decide, by decide⟩

/-- Witness for the amended C8 at a concrete input. -/
theorem split_single_chunk_witness :
    split_into_chunks "abc".toList "d" none none 3 1 =
      [⟨"d", 0, pyStrip "abc".toList, (none : Option String).getD "unknown", none, 0,
        ((3 : Nat) : Int), (pyStrip "abc".toList).length⟩] :=
  split_single_chunk "abc".toList "d" none none 3 1 (by decide) (by decide) (by decide)

theorem pyRfind_ge (t : List Char) (c : Char) (a b : Int)
    (h : 0 ≤ pyRfind t c a b) : (pyIdx a t.length : Int) ≤ pyRfind t c a b := by
  rcases hm : lastIdxOf (pySlice t a b) c with _ | k
  · have hv : pyRfind t c a b = -1 := by rw [pyRfind, hm]
    rw [hv] at h
    omega
  · have hv : pyRfind t c a b = (pyIdx a t.length : Int) + k := by rw [pyRfind, hm]
    rw [hv]
    omega

theorem sentenceEnd_ge (text : List Char) (S : Nat) (start : Int)
    (h : 0 ≤ sentenceEnd text S start) :
    (pyIdx (start + S - 100) text.length : Int) ≤ sentenceEnd text S start := by
  unfold sentenceEnd at h ⊢
  rcases max_choice (pyRfind text '.' (start + S - 100) (start + S))
      (max (pyRfind text '!' (start + S - 100) (start + S))
        (pyRfind text '?' (start + S - 100) (start + S))) with hm | hm <;>
    rw [hm] at h ⊢
  · exact pyRfind_ge text '.' (start + S - 100) (start + S) h
  · rcases max_choice (pyRfind text '!' (start + S - 100) (start + S))
        (pyRfind text '?' (start + S - 100) (start + S)) with hm2 | hm2 <;>
      rw [hm2] at h ⊢
    · exact pyRfind_ge text '!' (start + S - 100) (start + S) h
    · exact pyRfind_ge text '?' (start + S - 100) (start + S) h

theorem nextStart_advances (text : List Char) (S O : Nat) (start : Int)
    (hO : O + 100 ≤ S) (h0 : 0 ≤ start) (h1 : start < (text.length : Int)) :
    start < nextStart text S O start := by
  by_cases hc : start + (S : Int) < (text.length : Int)
  · by_cases hf : start < sentenceEnd text S start
    · have hse0 : 0 ≤ sentenceEnd text S start := le_trans h0 (le_of_lt hf)
      have hge := sentenceEnd_ge text S start hse0
      have hlt := sentenceEnd_lt text S start
      have hlow : (pyIdx (start + ↑S - 100) text.length : Int) = start + ↑S - 100 := by
        unfold pyIdx
        split_ifs <;> omega
      have hup : (pyIdx (start + ↑S) text.length : Int) = start + ↑S := by
        unfold pyIdx
        split_ifs <;> omega
      have he : chunkEnd text S start = sentenceEnd text S start + 1 := by
        rw [chunkEnd, if_pos hc, if_pos hf]
      have heltn : chunkEnd text S start < (text.length : Int) := by
        rw [he]
        omega
      simp only [nextStart]
      rw [if_pos heltn, he]
      omega
    · have he : chunkEnd text S start = start + S := by
        rw [chunkEnd, if_pos hc, if_neg hf]
      have heltn : chunkEnd text S start < (text.length : Int) := by
        rw [he]
        exact hc
      simp only [nextStart]
      rw [if_pos heltn, he]
      omega
  · have he : chunkEnd text S start = start + S := by
      rw [chunkEnd, if_neg hc]
    have heltn : ¬chunkEnd text S start < (text.length : Int) := by
      rw [he]
      exact hc
    simp only [nextStart]
    rw [if_neg heltn, he]
    omega

theorem splitLoop_succ_eq (text : List Char) (d : String) (fn : Option String)
    (pg : Option Nat) (S O : Nat) (fuel : Nat) (start : Int) (idx : Nat) :
    splitLoop text d fn pg S O (fuel + 1) start idx =
      if start < (text.length : Int) then
        (if (pyStrip (pySlice text start (chunkEnd text S start))).isEmpty = true then
          splitLoop text d fn pg S O fuel (nextStart text S O start) idx
        else
          { document_id := d
            chunk_index := idx
            content := pyStrip (pySlice text start (chunkEnd text S start))
            filename := fn.getD "unknown"
            page := pg
            start_pos := start
            end_pos := chunkEnd text S start
            length := (pyStrip (pySlice text start (chunkEnd text S start))).length } ::
            splitLoop text d fn pg S O fuel (nextStart text S O start) (idx + 1))
      else [] := rfl

theorem splitLoop_fuel_succ (text : List Char) (d : String) (fn : Option String)
    (pg : Option Nat) (S O : Nat) (hO : O + 100 ≤ S) :
    ∀ (fuel : Nat) (start : Int) (idx : Nat), 0 ≤ start →
      (text.length : Int) - start ≤ (fuel : Int) →
      splitLoop text d fn pg S O fuel start idx =
        splitLoop text d fn pg S O (fuel + 1) start idx := by
  intro fuel
  induction fuel with
  | zero =>
    intro start idx h0 hb
    have h : ¬start < (text.length : Int) := by
      simp only [Nat.cast_zero] at hb
      omega
    rw [splitLoop_stop text d fn pg S O 0 start idx h,
      splitLoop_stop text d fn pg S O 1 start idx h]
  | succ fuel ih =>
    intro start idx h0 hb
    by_cases h1 : start < (text.length : Int)
    · have hadv := nextStart_advances text S O start hO h0 h1
      have h0' : 0 ≤ nextStart text S O start := by omega
      have hb' : (text.length : Int) - nextStart text S O start ≤ (fuel : Int) := by
        push_cast at hb
        omega
      rw [splitLoop_succ_eq text d fn pg S O fuel start idx,
        splitLoop_succ_eq text d fn pg S O (fuel + 1) start idx, if_pos h1, if_pos h1]
      by_cases h2 : (pyStrip (pySlice text start (chunkEnd text S start))).isEmpty = true
      · rw [if_pos h2, if_pos h2]
        exact ih _ idx h0' hb'
      · rw [if_neg h2, if_neg h2]
        rw [ih _ (idx + 1) h0' hb']
    · rw [splitLoop_stop text d fn pg S O (fuel + 1) start idx h1,
        splitLoop_stop text d fn pg S O (fuel + 1 + 1) start idx h1]

theorem splitLoop_fuel_stable (text : List Char) (d : String) (fn : Option String)
    (pg : Option Nat) (S O : Nat) (hO : O + 100 ≤ S) :
    ∀ (k fuel : Nat) (start : Int) (idx : Nat), 0 ≤ start →
      (text.length : Int) - start ≤ (fuel : Int) →
      splitLoop text d fn pg S O fuel start idx =
        splitLoop text d fn pg S O (fuel + k) start idx := by
  intro k
  induction k with
  | zero => intro fuel start idx _ _; rfl
  | succ k ih =>
    intro fuel start idx h0 hb
    rw [ih fuel start idx h0 hb]
    have hb2 : (text.length : Int) - start ≤ ((fuel + k : Nat) : Int) := by
      push_cast at hb ⊢
      omega
    have hassoc : fuel + (k + 1) = (fuel + k) + 1 := rfl
    rw [hassoc]
    exact splitLoop_fuel_succ text d fn pg S O hO (fuel + k) start idx h0 hb2

/-- C2 (amended): `O < S` alone does not make the cursor advance (see the
counterexample, which the code accepts unchecked — there is no rejection
or clamping of the configuration anywhere).  Under the stronger
precondition `O + 100 ≤ S` (which the shipped defaults `S = 800, O = 200`
satisfy) the cursor strictly advances on every iteration started from a
non-negative position, and the chunking loop therefore terminates: its
fuelled model is independent of the fuel once the fuel covers the text
length. -/
theorem chunk_loop_advances (text : List Char) (d : String) (fn : Option String)
    (pg : Option Nat) (S O : Nat) (start : Int) (f1 f2 : Nat)
    (hO : O + 100 ≤ S) (h0 : 0 ≤ start) (h1 : start < (text.length : Int))
    (hf1 : text.length ≤ f1) (hf2 : text.length ≤ f2) :
    start < nextStart text S O start ∧
      splitLoop text d fn pg S O f1 0 0 = splitLoop text d fn pg S O f2 0 0 := by
  refine ⟨nextStart_advances text S O start hO h0 h1, ?_⟩
  have key : ∀ f : Nat, text.length ≤ f →
      splitLoop text d fn pg S O f 0 0 =
        splitLoop text d fn pg S O text.length 0 0 := by
    intro f hf
    have hsplit : f = text.length + (f - text.length) := by omega
    rw [hsplit]
    refine (splitLoop_fuel_stable text d fn pg S O hO (f - text.length) text.length 0 0
      (le_refl 0) ?_).symm
    omega
  rw [key f1 hf1, key f2 hf2]

/-- Witness for the amended C2 at a concrete input. -/
theorem chunk_loop_advances_witness :
    (0 : Int) < nextStart "ab".toList 101 1 0 ∧
      splitLoop "ab".toList "d" none none 101 1 2 0 0 =
        splitLoop "ab".toList "d" none none 101 1 3 0 0 :=
  chunk_loop_advances "ab".toList "d" none none 101 1 0 2 3 (by decide) (by decide)
    (by decide) (by decide) (by decide)

/-- C2 counterexample: with chunk size 10 and overlap 5 (so `O < S`) on
the 22-character text `"a.bbbbbbbbbbbbbbbbbbbb"`, the cursor moves from 0
to -3 and then stays at -3 forever while `-3 < len(text)` keeps the loop
running: the cursor never advances again and the Python loop does not
terminate; no configuration check rejects or clamps this configuration
before chunking. -/
theorem chunk_cursor_stuck_counterexample :
    5 < 10 ∧
    nextStart "a.bbbbbbbbbbbbbbbbbbbb".toList 10 5 0 = -3 ∧
    nextStart "a.bbbbbbbbbbbbbbbbbbbb".toList 10 5 (-3) = -3 ∧
    (-3 : Int) < ("a.bbbbbbbbbbbbbbbbbbbb".toList.length : Int) :=
  ⟨by decide, by decide, by decide, by decide⟩

/-!
## Streaming and query-path claims
-/

theorem streamTokens_no_error (fragments : List String)
    (h : ∀ f ∈ fragments, errorTagged f = false) :
    streamTokens fragments =
      fragments.map StreamEvent.token ++ [StreamEvent.done] := by
  induction fragments with
  | nil => rfl
  | cons t rest ih =>
    have ht := h t (by simp)
    simp only [streamTokens, ht, Bool.false_eq_true, if_false, List.map_cons,
      List.cons_append]
    exact congrArg (StreamEvent.token t :: ·) (ih fun f hf => h f (by simp [hf]))

theorem streamTokens_until_error (pre : List String) (t : String) (rest : List String)
    (hpre : ∀ f ∈ pre, errorTagged f = false) (ht : errorTagged t = true) :
    streamTokens (pre ++ t :: rest) =
      pre.map StreamEvent.token ++ [StreamEvent.error t, StreamEvent.done] := by
  induction pre with
  | nil =>
    simp only [List.nil_append, streamTokens, ht, if_true, List.map_nil]
  | cons f pre ih =>
    have hf := hpre f (by simp)
    simp only [List.cons_append, streamTokens, hf, Bool.false_eq_true, if_false,
      List.map_cons, List.append_eq]
    exact congrArg (StreamEvent.token f :: ·) (ih fun g hg => hpre g (by simp [hg]))

/-- A fixture chunk used by the concrete witnesses below. -/
def chunkA : DocumentChunk :=
  { id := "c1"
    document_id := "doc1"
    chunk_index := 0
    content := "hello".toList
    metadata := [("filename", "f.txt"), ("page", "1")]
    similarity_score := none }

/-- C4: with a non-empty retrieval result and no error-tagged fragment,
`stream_query` emits exactly searching, sources, generating,
token(f1), ..., token(fn), done — each token carrying exactly its
fragment, in generator order, with no reordering, merging or
duplication. -/
theorem stream_query_ok (chunks : List DocumentChunk) (fragments : List String)
    (hne : chunks ≠ []) (herr : ∀ f ∈ fragments, errorTagged f = false) :
    stream_query (.ok chunks) fragments =
      .sources_search :: .sources (prepare_sources chunks) :: .generation_start ::
        (fragments.map StreamEvent.token ++ [StreamEvent.done]) := by
  have hie : chunks.isEmpty = false := by
    rw [← Bool.not_eq_true, List.isEmpty_iff]
    exact hne
  simp only [stream_query, hie, Bool.false_eq_true, if_false]
  rw [streamTokens_no_error fragments herr]

/-- Witness for C4 at a concrete input. -/
theorem stream_query_ok_witness :
    stream_query (.ok [chunkA]) ["Hi", " there"] =
      .sources_search :: .sources (prepare_sources [chunkA]) :: .generation_start ::
        (["Hi", " there"].map StreamEvent.token ++ [StreamEvent.done]) :=
  stream_query_ok [chunkA] ["Hi", " there"] (by decide) (by decide)

/-- C1 (amended): if fragment `fk` is the first error-tagged fragment, the
emitted events are searching, sources, generating, token(f1), ...,
token(f(k-1)), error, done: no token event follows the error, but the
stream is terminated by a trailing `done` event after the `error` event
(the `break` leaves the token loop, after which the generator body still
yields its final done event), rather than the error event being last. -/
theorem stream_query_error (chunks : List DocumentChunk) (pre : List String)
    (t : String) (rest : List String) (hne : chunks ≠ [])
    (hpre : ∀ f ∈ pre, errorTagged f = false) (ht : errorTagged t = true) :
    stream_query (.ok chunks) (pre ++ t :: rest) =
      .sources_search :: .sources (prepare_sources chunks) :: .generation_start ::
        (pre.map StreamEvent.token ++ [StreamEvent.error t, StreamEvent.done]) := by
  have hie : chunks.isEmpty = false := by
    rw [← Bool.not_eq_true, List.isEmpty_iff]
    exact hne
  simp only [stream_query, hie, Bool.false_eq_true, if_false]
  rw [streamTokens_until_error pre t rest hpre ht]

/-- Witness for the amended C1 at a concrete input. -/
theorem stream_query_error_witness :
    stream_query (.ok [chunkA]) (["Hi"] ++ "ERROR: boom" :: ["junk"]) =
      .sources_search :: .sources (prepare_sources [chunkA]) :: .generation_start ::
        (["Hi"].map StreamEvent.token ++
          [StreamEvent.error "ERROR: boom", StreamEvent.done]) :=
  stream_query_error [chunkA] ["Hi"] "ERROR: boom" ["junk"] (by decide) (by decide)
    (by decide)

/-- C1 counterexample: on a concrete stream whose second fragment is
error-tagged, the emitted sequence ends with a `done` event after the
`error` event — the `error` event is not the last event of the stream. -/
theorem stream_error_followed_by_done :
    stream_query (.ok [chunkA]) ["Hi", "ERROR: boom"] =
      [.sources_search, .sources (prepare_sources [chunkA]), .generation_start,
        .token "Hi", .error "ERROR: boom", .done] ∧
    (stream_query (.ok [chunkA]) ["Hi", "ERROR: boom"]).getLast? =
      some StreamEvent.done :=
  ⟨rfl, rfl⟩

/-- C3 (amended): on empty retrieval the non-streaming path returns the
fixed fallback literal "I couldn't find any relevant documents …" (not
the spec's quoted literal "no relevant documents found") with an empty
source list, and the result is independent of the generation outcome and
temperature — the Answer Generator is never consulted on this path.  The
streaming path emits exactly `searching` followed by the single terminal
fallback answer event (with its done marker), with no sources, generating
or token events, independent of the generator fragments. -/
theorem empty_retrieval_fallback (g g2 : Except String LLMResult) (temp temp2 : ℚ)
    (fr fr2 : List String) :
    (query [] g temp).answer = noDocsAnswer ∧
    (query [] g temp).sources = [] ∧
    query [] g temp = query [] g2 temp2 ∧
    stream_query (.ok []) fr =
      [.sources_search,
        .answer "No relevant documents were found to answer this question." true] ∧
    stream_query (.ok []) fr = stream_query (.ok []) fr2 :=
  ⟨rfl, rfl, rfl, rfl, rfl⟩

/-- C3 counterexample: the empty-retrieval answer is the fixed sentence
"I couldn't find any relevant documents …", which is not the literal
"no relevant documents found" stated by the claim. -/
theorem empty_retrieval_answer_counterexample :
    (query [] (.ok ⟨"ans", none, none⟩) 0).answer =
      "I couldn't find any relevant documents to answer your question. Try uploading relevant documents to the collection or ask a different question." ∧
    (query [] (.ok ⟨"ans", none, none⟩) 0).answer ≠
      "no relevant documents found" :=
  ⟨rfl, by decide⟩

/-- C5 counterexample: when the embedding step fails (message
"embedding down"), `similarity_search` swallows the failure and returns
an empty chunk list, so the orchestrator returns the no-documents
fallback response: its answer does not state that an error occurred and
its `model_info` carries no error description — contradicting the claim
for the embedding (and likewise the retrieval) failure cases it names. -/
theorem query_embedding_failure_counterexample :
    similarity_search (.ok ()) (.error "embedding down") (.ok [chunkA]) = [] ∧
    (query (similarity_search (.ok ()) (.error "embedding down") (.ok [chunkA]))
        (.ok ⟨"ans", none, none⟩) 0).answer = noDocsAnswer ∧
    (query (similarity_search (.ok ()) (.error "embedding down") (.ok [chunkA]))
        (.ok ⟨"ans", none, none⟩) 0).answer ≠ errAnswerPre ++ "embedding down" ∧
    ((query (similarity_search (.ok ()) (.error "embedding down") (.ok [chunkA]))
        (.ok ⟨"ans", none, none⟩) 0).model_info.find?
      (fun kv => kv.1 == "error")) = none :=
  ⟨rfl, rfl, by decide, rfl⟩

/-- C5 (amended): only the generation step can raise into the
orchestrator's `try` block, and such a failure yields a well-formed
response whose answer states that an error occurred (the fixed Polish
prefix followed by the error text) and whose `model_info` carries the
error description.  Embedding and retrieval failures never raise into
the orchestrator: `similarity_search` catches every failure of its
collection lookup, query-embedding computation, or index query and
returns an empty chunk list, so those failures yield the well-formed
no-documents fallback response instead, whose answer does not state an
error and whose `model_info` carries no error description.  In every
case `query` is a total function of the step outcomes, so no exception
propagates out of the orchestrator's query interface. -/
theorem query_failure_containment (e : String) (chunks : List DocumentChunk)
    (gc : Except String Unit) (emb : Except String (List ℚ))
    (res : Except String (List DocumentChunk)) (g : Except String LLMResult)
    (temp : ℚ) (hne : chunks ≠ []) :
    ((query chunks (.error e) temp).answer = errAnswerPre ++ e ∧
      (query chunks (.error e) temp).model_info = [("error", .s e)] ∧
      (query chunks (.error e) temp).sources = []) ∧
    (similarity_search (.error e) emb res = [] ∧
      similarity_search gc (.error e) res = [] ∧
      similarity_search gc emb (.error e) = []) ∧
    ((query (similarity_search gc (.error e) res) g temp).answer = noDocsAnswer ∧
      (query (similarity_search gc (.error e) res) g temp).model_info.find?
          (fun kv => kv.1 == "error") = none ∧
      (query (similarity_search gc (.error e) res) g temp).sources = []) := by
  have hie : chunks.isEmpty = false := by
    rw [← Bool.not_eq_true, List.isEmpty_iff]
    exact hne
  have hemb : similarity_search gc (.error e) res = [] := by
    cases gc <;> rfl
  have hres : similarity_search gc emb (.error e) = [] := by
    cases gc with
    | error a => rfl
    | ok u => cases emb <;> rfl
  refine ⟨⟨?_, ?_, ?_⟩, ⟨rfl, hemb, hres⟩, ?_, ?_, ?_⟩
  · simp [query, hie]
  · simp [query, hie]
  · simp [query, hie]
  · rw [hemb]
    rfl
  · rw [hemb]
    rfl
  · rw [hemb]
    rfl

/-- Witness for the amended C5 at a concrete input. -/
theorem query_failure_containment_witness :
    (((query [chunkA] (.error "boom") 0).answer = errAnswerPre ++ "boom" ∧
      (query [chunkA] (.error "boom") 0).model_info = [("error", .s "boom")] ∧
      (query [chunkA] (.error "boom") 0).sources = []) ∧
    (similarity_search (.error "boom") (.ok []) (.ok []) = [] ∧
      similarity_search (.ok ()) (.error "boom") (.ok []) = [] ∧
      similarity_search (.ok ()) (.ok []) (.error "boom") = []) ∧
    ((query (similarity_search (.ok ()) (.error "boom") (.ok []))
        (.ok ⟨"ans", none, none⟩) 0).answer = noDocsAnswer ∧
      (query (similarity_search (.ok ()) (.error "boom") (.ok []))
          (.ok ⟨"ans", none, none⟩) 0).model_info.find?
            (fun kv => kv.1 == "error") = none ∧
      (query (similarity_search (.ok ()) (.error "boom") (.ok []))
          (.ok ⟨"ans", none, none⟩) 0).sources = [])) :=
  query_failure_containment "boom" [chunkA] (.ok ()) (.ok []) (.ok [])
    (.ok ⟨"ans", none, none⟩) 0 (by decide)

theorem mapFrom_length {α β : Type} (f : Nat → α → β) :
    ∀ (k : Nat) (l : List α), (mapFrom f k l).length = l.length := by
  intro k l
  induction l generalizing k with
  | nil => rfl
  | cons a as ih => simp [mapFrom, ih]

theorem mapFrom_getElem? {α β : Type} (f : Nat → α → β) :
    ∀ (k : Nat) (l : List α) (i : Nat),
      (mapFrom f k l)[i]? = (l[i]?).map (f (k + i)) := by
  intro k l
  induction l generalizing k with
  | nil => intro i; simp [mapFrom]
  | cons a as ih =>
    intro i
    cases i with
    | zero => simp [mapFrom]
    | succ i =>
      simp only [mapFrom, List.getElem?_cons_succ]
      rw [ih (k + 1) i]
      have : k + 1 + i = k + (i + 1) := by omega
      rw [this]

/-- C6: the citation list built by `_prepare_sources` has exactly one
citation per retrieved chunk, in exactly the order the chunks appear in
the context assembled by `_prepare_context` (the i-th citation and the
i-th context block both come from the i-th chunk), regardless of the
numeric similarity-score values (replacing every score by anything leaves
the citations' identity and order unchanged) — no re-ranking, filtering,
or deduplication is applied. -/
theorem prepare_sources_order (chunks : List DocumentChunk) (i : Nat)
    (f : Option ℚ → Option ℚ) :
    (prepare_sources chunks).length = chunks.length ∧
    (contextParts chunks).length = chunks.length ∧
    (prepare_sources chunks)[i]? = (chunks[i]?).map mkChatSource ∧
    (contextParts chunks)[i]? = (chunks[i]?).map (fun c => mkContextPart (1 + i) c) ∧
    (prepare_sources (chunks.map fun c =>
        { c with similarity_score := f c.similarity_score })).map
          (fun s => (s.document_id, s.filename, s.page, s.content_preview)) =
      (prepare_sources chunks).map
        (fun s => (s.document_id, s.filename, s.page, s.content_preview)) := by
  refine ⟨?_, ?_, ?_, ?_, ?_⟩
  · simp [prepare_sources]
  · exact mapFrom_length _ 1 chunks
  · simp [prepare_sources]
  · exact mapFrom_getElem? _ 1 chunks i
  · simp only [prepare_sources, List.map_map]
    rfl
